import Mathlib

/-!
Verification of the Revive-Logbook data layer against its specification.

The TypeScript sources are shallowly embedded:
* numbers are modelled as `Int` (ids, timestamps) and `ℚ` (skill, chance),
* `undefined`/optional fields become `Option`,
* JavaScript's stable `Array.prototype.sort` with a numeric comparator is
  modelled by a stable insertion sort on the comparator's strict order,
* the IndexedDB object stores become association lists keyed the way the
  stores are keyed (`keyPath "id"`, or the explicit settings key).
-/

namespace TornRevives

/-! ## Data model (src: revive-enrichment interface declarations) -/

/-- A faction reference `{id, name}`. -/
structure Faction where
  id : Int
  name : String
deriving DecidableEq

/-- The `reviver` actor of a raw record (`actorA`). -/
structure Reviver where
  id : Int
  name : String
  faction : Option Faction
  skill : Option ℚ
deriving DecidableEq

/-- The `target` actor of a raw record (`actorB`); `hospital_reason` is the
free-text reason. -/
structure Target where
  id : Int
  name : String
  faction : Option Faction
  hospital_reason : Option String
deriving DecidableEq

/-- One raw interaction record (`ReviveData` in the source). -/
structure ReviveData where
  id : Int
  reviver : Reviver
  target : Target
  result : String
  success_chance : ℚ
  timestamp : Int
deriving DecidableEq

/-- The derived category of a revive reason (`"PvP" | "OD" | "Crime" | "RR" |
"Self Hosp" | "Casino"` in the source). -/
inductive Category where
  | PvP | OD | Crime | RR | SelfHosp | Casino
deriving DecidableEq

/-- The derived likelihood band (`"Low" | "Medium" | "High" | "Very High"`). -/
inductive Likelihood where
  | Low | Medium | High | VeryHigh
deriving DecidableEq

/-- The string value of a category, as used by the category filter dropdown. -/
def Category.str : Category → String
  | .PvP => "PvP"
  | .OD => "OD"
  | .Crime => "Crime"
  | .RR => "RR"
  | .SelfHosp => "Self Hosp"
  | .Casino => "Casino"

/-- An enriched record: the raw record plus the derived read-only fields. -/
structure EnrichedRevive extends ReviveData where
  Success : Bool
  Category : Category
  Chance : ℚ
  Likelihood : Likelihood
  Gain : Option ℚ
  HospitalizedBy : String
deriving DecidableEq

/-! ## Enrichment engine (src: `getCategory`, `getLikelihood`, `enrichRevives`) -/

/-- JavaScript `String.prototype.includes`: substring containment. -/
def includes (s pat : String) : Bool := decide (pat.data <:+: s.data)

/-- JavaScript `Math.round`: round half toward positive infinity. -/
def jsRound (x : ℚ) : Int := ⌊x + 1/2⌋

/-- `Math.round(x * 100) / 100` — round to two decimals. -/
def round2 (x : ℚ) : ℚ := (jsRound (x * 100) : ℚ) / 100

/-- The RR pattern test of `getCategory`. -/
def rrMatch (reason : String) : Bool :=
  includes reason "Shot themselves in the foot"

/-- The Self Hosp pattern test of `getCategory`. -/
def selfHospMatch (reason : String) : Bool :=
  includes reason "Severe emesis following Ipecac Syrup ingestion"

/-- The Casino pattern tests of `getCategory`. -/
def casinoMatch (reason : String) : Bool :=
  includes reason "Punched in the face by Leslie" ||
    includes reason "face punch" ||
    includes reason "kick to the throat" ||
    includes reason "choke hold"

/-- The PvP pattern tests of `getCategory`. -/
def pvpMatch (reason : String) : Bool :=
  ["Lost to", "Mugged by", "Hospitalized by"].any (fun p => includes reason p)

/-- The OD pattern tests of `getCategory`. -/
def odMatch (reason : String) : Bool :=
  ["Overdosed on", "Collapsed after"].any (fun o => includes reason o)

/-- `getCategory` from the source: nested first-match-wins conditionals. -/
def getCategory (reason : String) : Category :=
  if includes reason "Shot themselves in the foot" then .RR
  else if includes reason "Severe emesis following Ipecac Syrup ingestion" then .SelfHosp
  else if includes reason "Punched in the face by Leslie" ||
      includes reason "face punch" ||
      includes reason "kick to the throat" ||
      includes reason "choke hold" then .Casino
  else if ["Lost to", "Mugged by", "Hospitalized by"].any (fun p => includes reason p) then .PvP
  else if ["Overdosed on", "Collapsed after"].any (fun o => includes reason o) then .OD
  else .Crime

/-- The ordered rule table the spec describes: `(predicate, category)` pairs in
precedence order RR, Self Hosp, Casino, PvP, OD. -/
def categoryRules : List ((String → Bool) × Category) :=
  [(rrMatch, .RR), (selfHospMatch, .SelfHosp), (casinoMatch, .Casino),
   (pvpMatch, .PvP), (odMatch, .OD)]

/-- Modelled from the spec: evaluate an ordered rule table top to bottom,
first match wins, falling back to `Crime`. -/
def firstMatch (rules : List ((String → Bool) × Category)) (s : String) : Category :=
  match rules with
  | [] => .Crime
  | (p, c) :: rest => if p s then c else firstMatch rest s

/-- `getLikelihood` from the source. -/
def getLikelihood (chance : ℚ) : Likelihood :=
  if chance ≤ 30 then .Low
  else if chance ≤ 60 then .Medium
  else if chance ≤ 80 then .High
  else .VeryHigh

/-- The first enrichment pass of `enrichRevives`, applied to one record:
`{...revive, Success, Category, Chance, Likelihood, Gain: null, HospitalizedBy}`.
`revive.target.hospital_reason || ""` and `revive.success_chance || 0` are
modelled by `Option.getD` and the identity (`x || 0` is `x` on our number
model, since `0 || 0` is `0`). -/
def basicEnrich (r : ReviveData) : EnrichedRevive :=
  let hospitalizedBy := r.target.hospital_reason.getD ""
  let chance := r.success_chance
  { toReviveData := r
    Success := r.result == "success"
    Category := getCategory hospitalizedBy
    Chance := chance
    Likelihood := getLikelihood chance
    Gain := none
    HospitalizedBy := hospitalizedBy }

/-- `.map((r, idx) => ({revive: r, index: idx}))` starting at index `n`. -/
def indexedFrom (n : Nat) : List α → List (Nat × α)
  | [] => []
  | x :: xs => (n, x) :: indexedFrom (n + 1) xs

/-- Pair every element of a list with its index. -/
def indexed (l : List α) : List (Nat × α) := indexedFrom 0 l

/-- One insertion step of the stable sort: `x` is placed after every element
strictly below it and before the first element not strictly below it, so
elements with equal keys keep their original relative order. -/
def stableInsert (lt : α → α → Bool) (x : α) : List α → List α
  | [] => [x]
  | y :: ys => if lt y x then y :: stableInsert lt x ys else x :: y :: ys

/-- Stable sort by a strict comparison, modelling JavaScript's stable
`Array.prototype.sort` with a numeric comparator. -/
def stableSortBy (lt : α → α → Bool) : List α → List α
  | [] => []
  | x :: xs => stableInsert lt x (stableSortBy lt xs)

/-- The filter of the second enrichment pass:
`revive.reviver.id === userReviveId && revive.target.id !== userReviveId &&
revive.result === "success"`. -/
def reviveFilter (userReviveId : Int) (r : EnrichedRevive) : Bool :=
  r.reviver.id == userReviveId && !(r.target.id == userReviveId) &&
    r.result == "success"

/-- The gain written for a `(current, next)` pair of the sorted subsequence:
`0` when the next skill (`|| 0`) is at least `100`, otherwise
`Math.round((currentSkill - nextSkill) * 100) / 100`. -/
def gainValue (current next : EnrichedRevive) : ℚ :=
  let currentSkill := current.reviver.skill.getD 0
  let nextSkill := next.reviver.skill.getD 0
  if nextSkill ≥ 100 then 0 else round2 (currentSkill - nextSkill)

/-- `enriched[idx].Gain = g` — update one entry's `Gain`, everything else kept. -/
def setGain (l : List EnrichedRevive) (idx : Nat) (g : ℚ) : List EnrichedRevive :=
  match l[idx]? with
  | none => l
  | some r => l.set idx { r with Gain := some g }

/-- The `for` loop of `enrichRevives`: for each adjacent pair of the sorted
subsequence (all but the final element), write the gain at the pair's stored
original index. The loop reads skills from the sorted snapshot, which only
ever differs from the accumulator in the `Gain` field it does not read. -/
def assignGains (pairs : List (Nat × EnrichedRevive)) (acc : List EnrichedRevive) :
    List EnrichedRevive :=
  match pairs with
  | [] => acc
  | [_] => acc
  | c :: n :: rest => assignGains (n :: rest) (setGain acc c.1 (gainValue c.2 n.2))

/-- `enrichRevives` from the source: the per-record pass, then the chronological
skill-gain pass over the reference actor's successful revives. -/
def enrichRevives (revives : List ReviveData) (userReviveId : Int) :
    List EnrichedRevive :=
  if revives.length = 0 then []
  else
    let enriched := revives.map basicEnrich
    let mySuccessfulRevives :=
      stableSortBy (fun a b => decide (a.2.timestamp < b.2.timestamp))
        ((indexed enriched).filter (fun p => reviveFilter userReviveId p.2))
    assignGains mySuccessfulRevives enriched

/-- Modelled from the spec: the raw-record filter of the skill-gain
subsequence — `actorA.id == referenceActorId`, `actorB.id != referenceActorId`,
`success == true`. -/
def specFilter (ref : Int) (r : ReviveData) : Bool :=
  r.reviver.id == ref && !(r.target.id == ref) && r.result == "success"

/-- Modelled from the spec: the skill-gain subsequence, as index/record pairs,
sorted ascending by timestamp with a stable sort. -/
def specSubseq (l : List ReviveData) (ref : Int) : List (Nat × ReviveData) :=
  stableSortBy (fun a b => decide (a.2.timestamp < b.2.timestamp))
    ((indexed l).filter (fun p => specFilter ref p.2))

/-- Modelled from the spec: the skill gain of an adjacent `(current, next)`
pair of the subsequence — `round2(current.skill − next.skill)`, forced to `0`
when the next skill is at least `100`; missing skills count as `0`. -/
def specGain (current next : ReviveData) : ℚ :=
  if next.reviver.skill.getD 0 ≥ 100 then 0
  else round2 (current.reviver.skill.getD 0 - next.reviver.skill.getD 0)

/-! ## View engine (src: revives-table.tsx `filteredAndSortedRevives`,
`totalPages`, `handlePageChange`, `handlePageJump`, toggle handlers) -/

/-- The sortable fields of the table. -/
inductive SortField where
  | timestamp | skill | likelihood
deriving DecidableEq

/-- Sort direction. -/
inductive SortDirection where
  | asc | desc
deriving DecidableEq

/-- The filter and sort state of the table component. The two date pickers are
modelled by the epoch-second values the component derives from them
(`Math.floor(date.getTime() / 1000)`), the two exclusion `Set`s by lists whose
membership test is exact string equality. -/
structure FilterState where
  categoryFilter : String
  outcomeFilter : String
  playerSearch : String
  factionSearch : String
  excludedPlayers : List String
  excludedFactions : List String
  fromTs : Option Int
  toTs : Option Int
  sortField : SortField
  sortDirection : SortDirection
deriving DecidableEq

/-- The numeric sort key of the active sort field. -/
def sortKey : SortField → EnrichedRevive → ℚ
  | .timestamp, r => (r.timestamp : ℚ)
  | .skill, r => r.reviver.skill.getD 0
  | .likelihood, r => r.Chance

/-- The comparator of the table sort: `comparison` negated for descending. -/
def sortLt (f : SortField) (d : SortDirection) (a b : EnrichedRevive) : Bool :=
  match d with
  | .asc => decide (sortKey f a < sortKey f b)
  | .desc => decide (sortKey f b < sortKey f a)

/-- JavaScript `String.prototype.trim`, modelled structurally on the
character list (drop leading and trailing whitespace). -/
def jsTrim (s : String) : String :=
  ⟨((s.data.dropWhile Char.isWhitespace).reverse.dropWhile Char.isWhitespace).reverse⟩

/-- JavaScript `String.prototype.toLowerCase`, modelled characterwise. -/
def jsToLower (s : String) : String := ⟨s.data.map Char.toLower⟩

/-- The player-search predicate:
`r.target.name.toLowerCase().includes(playerSearch.toLowerCase())`. -/
def playerSearchPass (search : String) (r : EnrichedRevive) : Bool :=
  includes (jsToLower r.target.name) (jsToLower search)

/-- The faction-search predicate:
`r.target.faction?.name.toLowerCase().includes(searchLower)` — `undefined`
(no faction) is falsy, so the record is dropped. -/
def factionSearchPass (search : String) (r : EnrichedRevive) : Bool :=
  match r.target.faction with
  | none => false
  | some f => includes (jsToLower f.name) (jsToLower search)

/-- The player-exclusion predicate: `!excludedPlayers.has(r.target.name)`. -/
def playerExclusionPass (excludedPlayers : List String) (r : EnrichedRevive) : Bool :=
  !(excludedPlayers.contains r.target.name)

/-- The faction-exclusion predicate:
`!r.target.faction?.name || !excludedFactions.has(r.target.faction.name)` —
a record with no faction, or whose faction name is the empty string (falsy),
passes without consulting the exclusion set. -/
def factionExclusionPass (excludedFactions : List String) (r : EnrichedRevive) : Bool :=
  match r.target.faction with
  | none => true
  | some f => f.name == "" || !(excludedFactions.contains f.name)

/-- The `filteredAndSortedRevives` memo: the optional filter predicates applied
in source order, then the date bounds (`to` widened by `86399` seconds to the
end of the selected day), then the stable sort. -/
def filteredAndSortedRevives (revives : List EnrichedRevive) (st : FilterState) :
    List EnrichedRevive :=
  let f1 := if st.categoryFilter ≠ "all" then
      revives.filter (fun r => r.Category.str == st.categoryFilter) else revives
  let f2 := if st.outcomeFilter ≠ "all" then
      f1.filter (fun r => r.Success == (st.outcomeFilter == "success")) else f1
  let f3 := if jsTrim st.playerSearch ≠ "" then
      f2.filter (playerSearchPass st.playerSearch) else f2
  let f4 := if jsTrim st.factionSearch ≠ "" then
      f3.filter (factionSearchPass st.factionSearch) else f3
  let f5 := if 0 < st.excludedPlayers.length then
      f4.filter (playerExclusionPass st.excludedPlayers) else f4
  let f6 := if 0 < st.excludedFactions.length then
      f5.filter (factionExclusionPass st.excludedFactions) else f5
  let f7 := match st.fromTs with
    | none => f6
    | some ft => f6.filter (fun r => decide (ft ≤ r.timestamp))
  let f8 := match st.toTs with
    | none => f7
    | some tt => f7.filter (fun r => decide (r.timestamp ≤ tt + 86399))
  stableSortBy (sortLt st.sortField st.sortDirection) f8

/-- `Math.ceil(filteredAndSortedRevives.length / pageSize)` — note: no
`max(1, ·)` lower bound in the source. -/
def totalPages (filteredCount pageSize : Nat) : Nat :=
  (⌈(filteredCount : ℚ) / (pageSize : ℚ)⌉).toNat

/-- Modelled from the spec: `totalPages = max(1, ceil(filteredCount / pageSize))`. -/
def specTotalPages (filteredCount pageSize : Nat) : Nat :=
  max 1 (⌈(filteredCount : ℚ) / (pageSize : ℚ)⌉).toNat

/-- `handlePageChange`: stores the requested page as-is (no clamping). -/
def handlePageChange (newPage : Nat) : Nat := newPage

/-- `handlePageJump`: applies the requested page only when it is within
`[1, totalPages]`, otherwise the current page is left unchanged. -/
def handlePageJump (input tp cur : Nat) : Nat :=
  if 1 ≤ input ∧ input ≤ tp then input else cur

/-- `toggleExcludePlayer` / `toggleExcludeFaction`: delete the name if present
in the exclusion set, otherwise add it, as membership toggling of a `Set`. -/
def toggleExclude (excluded : List String) (name : String) : List String :=
  if excluded.contains name then excluded.filter (fun x => x ≠ name)
  else excluded ++ [name]

/-! ## Record store (src: indexeddb utilities, DB version 3) -/

/-- A settings-store value: either a scalar string (api key, mode) or the
persisted exclusion-filter object `{players, factions}`. -/
inductive SettingVal where
  | str (s : String)
  | excluded (players factions : List String)
deriving DecidableEq

/-- The settings object store: key/value pairs under explicit string keys. -/
abbrev SettingsStore := List (String × SettingVal)

/-- IndexedDB `store.put(value, key)` on the settings store: replaces the
value under the key, creating the entry if absent. -/
def putSetting (store : SettingsStore) (k : String) (v : SettingVal) : SettingsStore :=
  (List.filter (fun p => p.1 ≠ k) store) ++ [(k, v)]

/-- IndexedDB `store.get(key)` on the settings store. -/
def getSetting (store : SettingsStore) (k : String) : Option SettingVal :=
  (List.find? (fun p => p.1 == k) store).map Prod.snd

/-- `saveExcludedFilters`: `store.put({players, factions}, "excludedFilters")`. -/
def saveExcludedFilters (players factions : List String) (store : SettingsStore) :
    SettingsStore :=
  putSetting store "excludedFilters" (.excluded players factions)

/-- `getExcludedFilters`: `store.get("excludedFilters")`, `null` if absent. -/
def getExcludedFilters (store : SettingsStore) : Option (List String × List String) :=
  match getSetting store "excludedFilters" with
  | some (.excluded p f) => some (p, f)
  | _ => none

/-- IndexedDB `store.put(revive)` on a store with `keyPath: "id"`: replaces
the record with the same id if one exists, otherwise inserts the record. -/
def putRevive (store : List ReviveData) (r : ReviveData) : List ReviveData :=
  match store with
  | [] => [r]
  | x :: xs => if x.id == r.id then r :: xs else x :: putRevive xs r

/-- `saveRevives`: put every record of the fetched page, in page order. -/
def saveRevives (store : List ReviveData) (page : List ReviveData) : List ReviveData :=
  page.foldl putRevive store

/-- `getOldestTimestamp`: the minimum timestamp of the store (the source walks
the `timestamp` index forward and returns the first cursor value), `null` when
the store is empty. -/
def getOldestTimestamp (store : List ReviveData) : Option Int :=
  (store.map ReviveData.timestamp).foldr
    (fun t acc => match acc with | none => some t | some u => some (min t u)) none

/-! ## Schema upgrade (src: `initDB`, `onupgradeneeded`, DB version 3) -/

/-- A database as a list of named object stores with their contents. Upgrade
logic never inspects contents, so the record type is a parameter. -/
abbrev DBStores (α : Type) := List (String × List α)

/-- `db.objectStoreNames.contains(name)`. -/
def hasStore (db : DBStores α) (name : String) : Bool :=
  db.any (fun p => p.1 == name)

/-- `db.createObjectStore(name)`: a new, empty store. -/
def createStore (db : DBStores α) (name : String) : DBStores α :=
  db ++ [(name, [])]

/-- `db.deleteObjectStore(name)`: the store and all its records are removed. -/
def deleteStore (db : DBStores α) (name : String) : DBStores α :=
  db.filter (fun p => p.1 ≠ name)

/-- The contents of a named store, `none` if the store does not exist. -/
def getStore (db : DBStores α) (name : String) : Option (List α) :=
  (db.find? (fun p => p.1 == name)).map Prod.snd

/-- The `onupgradeneeded` handler of `initDB` at DB version 3: create
`settings`, `userRevives`, `factionRevives` and `paymentStatus` when absent,
and delete the legacy `revives` store when present. -/
def onUpgrade (db : DBStores α) : DBStores α :=
  let db1 := if hasStore db "settings" then db else createStore db "settings"
  let db2 := if hasStore db1 "userRevives" then db1 else createStore db1 "userRevives"
  let db3 := if hasStore db2 "factionRevives" then db2 else createStore db2 "factionRevives"
  let db4 := if hasStore db3 "revives" then deleteStore db3 "revives" else db3
  if hasStore db4 "paymentStatus" then db4 else createStore db4 "paymentStatus"

/-! ## Sync cursor (src: revives-dashboard.tsx `fetchRevives`) -/

/-- The dashboard state the fetch routine touches. The two mode-scoped record
stores are persisted; `mode` holds the `getApiMode()` setting; `revives` is
the in-memory enriched set; the booleans are the UI flags. -/
structure DashState where
  apiKey : Option String
  mode : String
  userStore : List ReviveData
  factionStore : List ReviveData
  hasMoreData : Bool
  error : String
  revives : List EnrichedRevive
  userReviveId : Int
  isLoading : Bool
  isFetching : Bool
  isLoadingMore : Bool
  loggedOut : Bool
deriving DecidableEq

/-- The outcome of the external `fetch`: a thrown network error or a non-ok
(e.g. unauthorized) response both become `failure`; a parsed page of records
becomes `page`. -/
inductive FetchOutcome where
  | failure
  | page (records : List ReviveData)
deriving DecidableEq

/-- The record store selected by the current mode. -/
def storeFor (st : DashState) : List ReviveData :=
  if st.mode == "user" then st.userStore else st.factionStore

/-- Replace the record store selected by the current mode. -/
def setStoreFor (st : DashState) (s : List ReviveData) : DashState :=
  if st.mode == "user" then { st with userStore := s } else { st with factionStore := s }

/-- `fetchRevives(backfill)`: flags are raised, the error banner cleared; a
missing api key logs out; a fetch failure sets the error banner and nothing
else; a fetched page updates `hasMoreData` (backfill + empty page), captures
the reference actor id from the first record (`|| userReviveId` — `0` and
`undefined` are falsy), merges the page into the mode's store and re-enriches
the full store. The `finally` block lowers the loading flags on every path. -/
def fetchRevives (st0 : DashState) (backfill : Bool) (outcome : FetchOutcome) :
    DashState :=
  let st1 := if backfill then { st0 with isLoadingMore := true }
             else { st0 with isFetching := true }
  let st2 := { st1 with error := "" }
  let done := fun (st : DashState) =>
    { st with isLoading := false, isFetching := false, isLoadingMore := false }
  match st2.apiKey with
  | none => done { st2 with loggedOut := true }
  | some _ =>
    match outcome with
    | .failure => done { st2 with error := "Failed to fetch revives. Please try again." }
    | .page fetched =>
      let st3 := if backfill && fetched.isEmpty then { st2 with hasMoreData := false }
                 else st2
      if fetched.isEmpty then done st3
      else
        let headId := match fetched.head? with
          | some r => r.reviver.id
          | none => 0
        let st4 := if st3.userReviveId == 0 && !(headId == 0) then
            { st3 with userReviveId := headId } else st3
        let st5 := setStoreFor st4 (saveRevives (storeFor st4) fetched)
        let refId := if headId == 0 then st5.userReviveId else headId
        done { st5 with revives := enrichRevives (storeFor st5) refId }

/-! ## Concrete example values used by witnesses and counterexamples -/

/-- A reference-actor reviver with a given skill. -/
def exReviver (skill : ℚ) : Reviver :=
  { id := 1, name := "Me", faction := none, skill := some skill }

/-- A target with no faction. -/
def exTarget : Target :=
  { id := 2, name := "Tar", faction := none, hospital_reason := some "Lost to Foe" }

/-- A successful reference-actor record. -/
def exRecord (rid ts : Int) (skill : ℚ) : ReviveData :=
  { id := rid, reviver := exReviver skill, target := exTarget,
    result := "success", success_chance := 50, timestamp := ts }

/-- Three successful reference-actor records with skills 50, 40, 20 in
timestamp order. -/
def exList : List ReviveData :=
  [exRecord 10 100 50, exRecord 11 200 40, exRecord 12 300 20]

/-- A target whose faction exists but has the empty string as its name. -/
def exTargetEmptyFaction : Target :=
  { id := 3, name := "Ufo", faction := some { id := 7, name := "" },
    hospital_reason := none }

/-- A record whose target faction name is the empty string. -/
def exRawEmptyFaction : ReviveData :=
  { id := 20, reviver := exReviver 10, target := exTargetEmptyFaction,
    result := "failure", success_chance := 40, timestamp := 500 }

/-- The table state with every filter inactive (the component's initial
state: sort by timestamp, descending). -/
def stAll : FilterState :=
  { categoryFilter := "all", outcomeFilter := "all", playerSearch := "",
    factionSearch := "", excludedPlayers := [], excludedFactions := [],
    fromTs := none, toTs := none,
    sortField := .timestamp, sortDirection := .desc }

/-- A dashboard state with an api key and a cached user store. -/
def exDash : DashState :=
  { apiKey := some "key", mode := "user", userStore := exList,
    factionStore := [], hasMoreData := true, error := "", revives := [],
    userReviveId := 1, isLoading := false, isFetching := false,
    isLoadingMore := false, loggedOut := false }

/-- A version-2 database: a legacy `revives` store holding one record. -/
def exLegacyDB : DBStores ReviveData :=
  [("settings", []), ("revives", [exRecord 10 100 50]), ("paymentStatus", [])]

/-! ## Helper lemmas: stable sort and indexing -/

theorem stableInsert_perm (lt : α → α → Bool) (x : α) (l : List α) :
    (stableInsert lt x l).Perm (x :: l) := by
  induction l with
  | nil => simp [stableInsert]
  | cons y ys ih =>
    by_cases h : lt y x = true
    · simpa [stableInsert, h] using (ih.cons y).trans (List.Perm.swap x y ys)
    · simp [stableInsert, h]

theorem stableSortBy_perm (lt : α → α → Bool) (l : List α) :
    (stableSortBy lt l).Perm l := by
  induction l with
  | nil => simp [stableSortBy]
  | cons x xs ih =>
    exact (stableInsert_perm lt x (stableSortBy lt xs)).trans (ih.cons x)

theorem mem_stableSortBy {lt : α → α → Bool} {l : List α} {a : α} :
    a ∈ stableSortBy lt l ↔ a ∈ l :=
  (stableSortBy_perm lt l).mem_iff

theorem stableInsert_map (f : α → β) (lt : β → β → Bool) (ltA : α → α → Bool)
    (h : ∀ a b, lt (f a) (f b) = ltA a b) (x : α) (l : List α) :
    stableInsert lt (f x) (l.map f) = (stableInsert ltA x l).map f := by
  induction l with
  | nil => simp [stableInsert]
  | cons y ys ih =>
    by_cases hy : ltA y x = true
    · simp [stableInsert, h, hy, ih]
    · simp [stableInsert, h, hy]

theorem stableSortBy_map (f : α → β) (lt : β → β → Bool) (ltA : α → α → Bool)
    (h : ∀ a b, lt (f a) (f b) = ltA a b) (l : List α) :
    stableSortBy lt (l.map f) = (stableSortBy ltA l).map f := by
  induction l with
  | nil => simp [stableSortBy]
  | cons x xs ih => simp [stableSortBy, ih, stableInsert_map f lt ltA h]

theorem indexedFrom_map (f : α → β) (n : Nat) (l : List α) :
    indexedFrom n (l.map f) = (indexedFrom n l).map (Prod.map id f) := by
  induction l generalizing n with
  | nil => simp [indexedFrom]
  | cons x xs ih => simp [indexedFrom, ih]

theorem indexed_map (f : α → β) (l : List α) :
    indexed (l.map f) = (indexed l).map (Prod.map id f) :=
  indexedFrom_map f 0 l

theorem map_fst_indexedFrom (n : Nat) (l : List α) :
    (indexedFrom n l).map Prod.fst = List.range' n l.length := by
  induction l generalizing n with
  | nil => simp [indexedFrom]
  | cons x xs ih => simp [indexedFrom, List.range'_succ, ih]

theorem nodup_map_fst_indexed (l : List α) :
    ((indexed l).map Prod.fst).Nodup := by
  rw [indexed, map_fst_indexedFrom]
  exact List.nodup_range' 0 l.length

theorem getElem?_of_mem_indexedFrom {n : Nat} {l : List α} {p : Nat × α}
    (h : p ∈ indexedFrom n l) : ∃ k, p.1 = n + k ∧ l[k]? = some p.2 := by
  induction l generalizing n with
  | nil => simp [indexedFrom] at h
  | cons x xs ih =>
    simp only [indexedFrom, List.mem_cons] at h
    rcases h with h | h
    · exact ⟨0, by simp [h]⟩
    · obtain ⟨k, hk1, hk2⟩ := ih h
      exact ⟨k + 1, by omega, by simpa using hk2⟩

theorem getElem?_of_mem_indexed {l : List α} {p : Nat × α}
    (h : p ∈ indexed l) : l[p.1]? = some p.2 := by
  obtain ⟨k, hk1, hk2⟩ := getElem?_of_mem_indexedFrom h
  simpa [hk1] using hk2

/-! ## Helper lemmas: the gain-assignment loop -/

theorem setGain_length (l : List EnrichedRevive) (idx : Nat) (g : ℚ) :
    (setGain l idx g).length = l.length := by
  unfold setGain
  cases h : l[idx]? <;> simp

theorem setGain_getElem?_ne (l : List EnrichedRevive) (idx : Nat) (g : ℚ)
    (j : Nat) (h : j ≠ idx) : (setGain l idx g)[j]? = l[j]? := by
  unfold setGain
  cases hl : l[idx]? with
  | none => rfl
  | some r => exact List.getElem?_set_ne (fun he => h he.symm)

theorem setGain_getElem?_self (l : List EnrichedRevive) (idx : Nat) (g : ℚ)
    (r : EnrichedRevive) (h : l[idx]? = some r) :
    (setGain l idx g)[idx]? = some { r with Gain := some g } := by
  have hlen : idx < l.length := (List.getElem?_eq_some_iff.mp h).1
  unfold setGain
  rw [h, List.getElem?_set_self]
  simp [hlen]

theorem setGain_raw (l : List EnrichedRevive) (idx : Nat) (g : ℚ) (j : Nat) :
    ((setGain l idx g)[j]?).map EnrichedRevive.toReviveData =
      (l[j]?).map EnrichedRevive.toReviveData := by
  by_cases hj : j = idx
  · subst hj
    cases hl : l[j]? with
    | none => simp [setGain, hl]
    | some r =>
      rw [setGain_getElem?_self l j g r hl]
      rfl
  · rw [setGain_getElem?_ne l idx g j hj]

theorem assignGains_length (pairs : List (Nat × EnrichedRevive))
    (acc : List EnrichedRevive) :
    (assignGains pairs acc).length = acc.length := by
  induction pairs generalizing acc with
  | nil => rfl
  | cons c tail ih =>
    cases tail with
    | nil => rfl
    | cons n rest =>
      rw [assignGains, ih, setGain_length]

theorem assignGains_raw (pairs : List (Nat × EnrichedRevive))
    (acc : List EnrichedRevive) (j : Nat) :
    ((assignGains pairs acc)[j]?).map EnrichedRevive.toReviveData =
      (acc[j]?).map EnrichedRevive.toReviveData := by
  induction pairs generalizing acc with
  | nil => rfl
  | cons c tail ih =>
    cases tail with
    | nil => rfl
    | cons n rest =>
      rw [assignGains, ih, setGain_raw]

theorem assignGains_getElem?_of_not_mem (pairs : List (Nat × EnrichedRevive))
    (acc : List EnrichedRevive) (j : Nat)
    (hj : j ∉ pairs.dropLast.map Prod.fst) :
    (assignGains pairs acc)[j]? = acc[j]? := by
  induction pairs generalizing acc with
  | nil => rfl
  | cons c tail ih =>
    cases tail with
    | nil => rfl
    | cons n rest =>
      simp only [List.dropLast_cons₂, List.map_cons, List.mem_cons, not_or] at hj
      rw [assignGains, ih _ hj.2, setGain_getElem?_ne _ _ _ _ hj.1]

theorem assignGains_getElem?_pair (pairs : List (Nat × EnrichedRevive))
    (acc : List EnrichedRevive) (hd : (pairs.map Prod.fst).Nodup)
    (hm : ∀ p ∈ pairs, acc[p.1]? = some p.2)
    (i : Nat) (c n : Nat × EnrichedRevive)
    (hc : pairs[i]? = some c) (hn : pairs[i + 1]? = some n) :
    (assignGains pairs acc)[c.1]? =
      some { c.2 with Gain := some (gainValue c.2 n.2) } := by
  induction pairs generalizing acc i with
  | nil => simp at hc
  | cons c0 tail ih =>
    cases tail with
    | nil =>
      have : i + 1 < 1 := (List.getElem?_eq_some_iff.mp hn).1
      omega
    | cons n0 rest =>
      rw [List.map_cons, List.nodup_cons] at hd
      cases i with
      | zero =>
        simp at hc hn
        subst hc; subst hn
        rw [assignGains]
        have hdrop : c0.1 ∉ ((n0 :: rest).dropLast).map Prod.fst := by
          intro hmem
          exact hd.1 ((List.Sublist.map Prod.fst (List.dropLast_sublist _)).mem hmem)
        rw [assignGains_getElem?_of_not_mem _ _ _ hdrop]
        exact setGain_getElem?_self _ _ _ _ (hm c0 (List.mem_cons_self _ _))
      | succ i0 =>
        rw [List.getElem?_cons_succ] at hc hn
        rw [assignGains]
        refine ih _ hd.2 ?_ i0 hc hn
        intro p hp
        have hne : p.1 ≠ c0.1 := by
          intro he
          exact hd.1 (he ▸ List.mem_map_of_mem Prod.fst hp)
        rw [setGain_getElem?_ne _ _ _ _ hne]
        exact hm p (List.mem_cons_of_mem _ hp)

/-! ## Helper lemmas: the enrichment pipeline and the spec subsequence -/

theorem basicEnrich_toReviveData (r : ReviveData) :
    (basicEnrich r).toReviveData = r := rfl

theorem filter_map_pred {α β : Type} (f : α → β) (p : β → Bool) (l : List α) :
    (l.map f).filter p = (l.filter (fun a => p (f a))).map f := by
  induction l with
  | nil => rfl
  | cons x xs ih => by_cases h : p (f x) <;> simp [h, ih]

theorem enrich_pairs_eq (l : List ReviveData) (ref : Int) :
    stableSortBy (fun a b => decide (a.2.timestamp < b.2.timestamp))
      ((indexed (l.map basicEnrich)).filter (fun p => reviveFilter ref p.2)) =
      (specSubseq l ref).map (Prod.map id basicEnrich) := by
  rw [indexed_map,
    filter_map_pred (Prod.map id basicEnrich) (fun p => reviveFilter ref p.2) (indexed l),
    specSubseq,
    stableSortBy_map (Prod.map id basicEnrich)
      (fun a b => decide (a.2.timestamp < b.2.timestamp))
      (fun a b => decide (a.2.timestamp < b.2.timestamp)) (fun a b => rfl)]
  rfl

theorem enrichRevives_eq_assign (l : List ReviveData) (ref : Int) (hl : l ≠ []) :
    enrichRevives l ref =
      assignGains ((specSubseq l ref).map (Prod.map id basicEnrich))
        (l.map basicEnrich) := by
  have hlen : ¬ l.length = 0 := by simpa using hl
  simp only [enrichRevives, if_neg hlen]
  rw [enrich_pairs_eq]

theorem specSubseq_fst_nodup (l : List ReviveData) (ref : Int) :
    ((specSubseq l ref).map Prod.fst).Nodup := by
  have hperm :
      ((specSubseq l ref).map Prod.fst).Perm
        (((indexed l).filter (fun p => specFilter ref p.2)).map Prod.fst) :=
    (stableSortBy_perm _ _).map Prod.fst
  rw [hperm.nodup_iff]
  exact (nodup_map_fst_indexed l).sublist
    (List.Sublist.map Prod.fst (List.filter_sublist _))

theorem mem_specSubseq {l : List ReviveData} {ref : Int} {p : Nat × ReviveData}
    (h : p ∈ specSubseq l ref) : l[p.1]? = some p.2 := by
  rw [specSubseq, mem_stableSortBy] at h
  exact getElem?_of_mem_indexed (List.mem_filter.mp h).1

theorem specSubseq_nil (ref : Int) : specSubseq ([] : List ReviveData) ref = [] := rfl

theorem not_mem_dropLast_of_last {β : Type} {L : List β} {a : β} (hd : L.Nodup)
    (h : L[L.length - 1]? = some a) : a ∉ L.dropLast := by
  have hne : L ≠ [] := by rintro rfl; simp at h
  have hlast : L.getLast hne = a := by
    have h2 := List.getLast?_eq_getLast L hne
    rw [List.getLast?_eq_getElem? L, h] at h2
    exact (Option.some.injEq _ _ ▸ h2).symm
  have hsplit : L.dropLast ++ [a] = L := by
    rw [← hlast]; exact List.dropLast_append_getLast hne
  rw [← hsplit, List.nodup_append] at hd
  intro hmem
  exact hd.2.2 hmem (List.mem_singleton.mpr rfl)

/-! ## Claim C1 -/

/-- Claim C1: `enrichRevives` assigns `Gain` exactly as the spec describes.
With `s := specSubseq l ref` — the subsequence of records with
`reviver.id = ref`, `target.id ≠ ref` and `result = "success"`, stably sorted
ascending by timestamp and carrying original positions — we have: (a) for
every adjacent pair `(c, n)` of `s`, the output record at `c`'s original
position has `Gain = specGain c n` (`round2` of the skill difference, forced
to `0` when the next skill is at least `100`, missing skills read as `0`);
(b) the record at the final element's position has `Gain = null`; (c) every
record outside the subsequence has `Gain = null`. -/
theorem enrich_skillGain_spec (l : List ReviveData) (ref : Int) :
    (∀ i c n, (specSubseq l ref)[i]? = some c → (specSubseq l ref)[i + 1]? = some n →
      ((enrichRevives l ref)[c.1]?).map EnrichedRevive.Gain =
        some (some (specGain c.2 n.2))) ∧
    (∀ c, (specSubseq l ref)[(specSubseq l ref).length - 1]? = some c →
      ((enrichRevives l ref)[c.1]?).map EnrichedRevive.Gain = some none) ∧
    (∀ j, j < l.length → j ∉ (specSubseq l ref).map Prod.fst →
      ((enrichRevives l ref)[j]?).map EnrichedRevive.Gain = some none) := by
  have hmapfst : ∀ s : List (Nat × ReviveData),
      (s.map (Prod.map id basicEnrich)).map Prod.fst = s.map Prod.fst := by
    intro s
    rw [List.map_map]
    rfl
  have hmm : ∀ p ∈ (specSubseq l ref).map (Prod.map id basicEnrich),
      (l.map basicEnrich)[p.1]? = some p.2 := by
    intro p hp
    obtain ⟨q, hq, rfl⟩ := List.mem_map.mp hp
    have hq2 := mem_specSubseq hq
    show (l.map basicEnrich)[q.1]? = some (basicEnrich q.2)
    rw [List.getElem?_map, hq2]
    rfl
  have hnd : (((specSubseq l ref).map (Prod.map id basicEnrich)).map Prod.fst).Nodup := by
    rw [hmapfst]
    exact specSubseq_fst_nodup l ref
  refine ⟨?_, ?_, ?_⟩
  · intro i c n hc hn
    have hl : l ≠ [] := by
      rintro rfl
      rw [specSubseq_nil] at hc
      simp at hc
    rw [enrichRevives_eq_assign l ref hl]
    have hcp : ((specSubseq l ref).map (Prod.map id basicEnrich))[i]? =
        some (Prod.map id basicEnrich c) := by
      rw [List.getElem?_map, hc]
      rfl
    have hnp : ((specSubseq l ref).map (Prod.map id basicEnrich))[i + 1]? =
        some (Prod.map id basicEnrich n) := by
      rw [List.getElem?_map, hn]
      rfl
    have hmain := assignGains_getElem?_pair _ (l.map basicEnrich) hnd hmm i
      (Prod.map id basicEnrich c) (Prod.map id basicEnrich n) hcp hnp
    rw [show (Prod.map id basicEnrich c).1 = c.1 from rfl] at hmain
    rw [hmain]
    rfl
  · intro c hc
    have hl : l ≠ [] := by
      rintro rfl
      rw [specSubseq_nil] at hc
      simp at hc
    rw [enrichRevives_eq_assign l ref hl]
    have hlast : ((specSubseq l ref).map Prod.fst)[((specSubseq l ref).map Prod.fst).length - 1]? =
        some c.1 := by
      rw [List.length_map, List.getElem?_map, hc]
      rfl
    have hnotin : c.1 ∉ ((specSubseq l ref).map Prod.fst).dropLast :=
      not_mem_dropLast_of_last (specSubseq_fst_nodup l ref) hlast
    have hdrop : c.1 ∉ (((specSubseq l ref).map (Prod.map id basicEnrich)).dropLast).map Prod.fst := by
      rw [List.map_dropLast, hmapfst]
      exact hnotin
    rw [assignGains_getElem?_of_not_mem _ _ _ hdrop]
    have hc2 := mem_specSubseq (List.getElem?_mem hc)
    rw [List.getElem?_map, hc2]
    rfl
  · intro j hj hjmem
    have hl : l ≠ [] := by
      rintro rfl
      simp at hj
    rw [enrichRevives_eq_assign l ref hl]
    have hdrop : j ∉ (((specSubseq l ref).map (Prod.map id basicEnrich)).dropLast).map Prod.fst := by
      intro hmem
      apply hjmem
      rw [← hmapfst]
      exact (List.Sublist.map Prod.fst
        (List.dropLast_sublist _)).mem hmem
    rw [assignGains_getElem?_of_not_mem _ _ _ hdrop]
    cases hgl : l[j]? with
    | none =>
      rw [List.getElem?_eq_none_iff] at hgl
      omega
    | some r =>
      rw [List.getElem?_map, hgl]
      rfl

/-- Witness for C1: three successful reference-actor records with skills
`[50, 40, 20]` in timestamp order receive `Gain = [10, 20, null]`. -/
theorem enrich_skillGain_spec_witness :
    ((enrichRevives exList 1)[0]?).map EnrichedRevive.Gain = some (some 10) ∧
    ((enrichRevives exList 1)[1]?).map EnrichedRevive.Gain = some (some 20) ∧
    ((enrichRevives exList 1)[2]?).map EnrichedRevive.Gain = some none := by
  refine ⟨?_, ?_, ?_⟩
  · have h1 := (enrich_skillGain_spec exList 1).1 0
      (0, exRecord 10 100 50) (1, exRecord 11 200 40) (by decide) (by decide)
    rw [h1]
    norm_num [specGain, exRecord, exReviver, round2, jsRound]
  · have h1 := (enrich_skillGain_spec exList 1).1 1
      (1, exRecord 11 200 40) (2, exRecord 12 300 20) (by decide) (by decide)
    rw [h1]
    norm_num [specGain, exRecord, exReviver, round2, jsRound]
  · exact (enrich_skillGain_spec exList 1).2.1 (2, exRecord 12 300 20) (by decide)

/-! ## Claim C9 -/

/-- Claim C9: enrichment is a pure, non-mutating derivation: the output list
has the same length and order as the input, and every output record agrees
with its corresponding input record on all raw fields (`toReviveData`
collects exactly id, actors, outcome, chance and timestamp) — only the
derived fields are added. Non-mutation of the input is inherent to the
embedding: `enrichRevives` is a function of its argument. -/
theorem enrich_frame (l : List ReviveData) (ref : Int) :
    (enrichRevives l ref).length = l.length ∧
    ∀ (j : Nat) (r : ReviveData), l[j]? = some r →
      ((enrichRevives l ref)[j]?).map EnrichedRevive.toReviveData = some r := by
  by_cases hl : l = []
  · subst hl
    refine ⟨rfl, ?_⟩
    intro j r h
    simp at h
  · constructor
    · rw [enrichRevives_eq_assign l ref hl, assignGains_length, List.length_map]
    · intro j r h
      rw [enrichRevives_eq_assign l ref hl, assignGains_raw, List.getElem?_map, h]
      rfl

/-- Witness for C9 at the three-record example list. -/
theorem enrich_frame_witness :
    (enrichRevives exList 1).length = exList.length ∧
    ((enrichRevives exList 1)[0]?).map EnrichedRevive.toReviveData =
      some (exRecord 10 100 50) :=
  ⟨(enrich_frame exList 1).1,
    (enrich_frame exList 1).2 0 (exRecord 10 100 50) (by decide)⟩

/-! ## Claim C4 -/

/-- Claim C4: `getCategory` is determined by the ordered rule table, first
match wins, in precedence order RR, Self Hosp, Casino, PvP, OD, with fallback
Crime; in particular any reason matching the RR pattern — even one also
matching a PvP pattern — classifies as RR. -/
theorem getCategory_ruleTable (s : String) :
    getCategory s = firstMatch categoryRules s ∧
    (rrMatch s = true → getCategory s = Category.RR) := by
  constructor
  · rfl
  · intro h
    have h2 : includes s "Shot themselves in the foot" = true := h
    simp [getCategory, h2]

/-- Witness for C4: a reason matching both the RR pattern and a PvP pattern
classifies as RR. -/
theorem getCategory_ruleTable_witness :
    rrMatch "Hospitalized by Leo Shot themselves in the foot" = true ∧
    pvpMatch "Hospitalized by Leo Shot themselves in the foot" = true ∧
    getCategory "Hospitalized by Leo Shot themselves in the foot" = Category.RR :=
  ⟨by decide, by decide,
    (getCategory_ruleTable "Hospitalized by Leo Shot themselves in the foot").2 (by decide)⟩

/-! ## Claim C5 -/

/-- Claim C5: the likelihood band is Low for `chance ≤ 30`, Medium for
`30 < chance ≤ 60`, High for `60 < chance ≤ 80` and Very High for
`chance > 80`; the boundary values 30, 60, 80 map to Low, Medium, High, and
80.01 maps to Very High. -/
theorem getLikelihood_bands (c : ℚ) :
    (c ≤ 30 → getLikelihood c = Likelihood.Low) ∧
    (30 < c → c ≤ 60 → getLikelihood c = Likelihood.Medium) ∧
    (60 < c → c ≤ 80 → getLikelihood c = Likelihood.High) ∧
    (80 < c → getLikelihood c = Likelihood.VeryHigh) ∧
    getLikelihood 30 = Likelihood.Low ∧
    getLikelihood 60 = Likelihood.Medium ∧
    getLikelihood 80 = Likelihood.High ∧
    getLikelihood 80.01 = Likelihood.VeryHigh := by
  refine ⟨?_, ?_, ?_, ?_, ?_, ?_, ?_, ?_⟩
  · intro h
    rw [getLikelihood, if_pos h]
  · intro h1 h2
    rw [getLikelihood, if_neg (by linarith), if_pos h2]
  · intro h1 h2
    rw [getLikelihood, if_neg (by linarith), if_neg (by linarith), if_pos h2]
  · intro h
    rw [getLikelihood, if_neg (by linarith), if_neg (by linarith), if_neg (by linarith)]
  · norm_num [getLikelihood]
  · norm_num [getLikelihood]
  · norm_num [getLikelihood]
  · norm_num [getLikelihood]

/-- Witness for C5: one chance value inside each band. -/
theorem getLikelihood_bands_witness :
    getLikelihood 15 = Likelihood.Low ∧
    getLikelihood 45 = Likelihood.Medium ∧
    getLikelihood 70 = Likelihood.High ∧
    getLikelihood 95 = Likelihood.VeryHigh :=
  ⟨(getLikelihood_bands 15).1 (by norm_num),
    (getLikelihood_bands 45).2.1 (by norm_num) (by norm_num),
    (getLikelihood_bands 70).2.2.1 (by norm_num) (by norm_num),
    (getLikelihood_bands 95).2.2.2.1 (by norm_num)⟩

/-! ## Claim C8 -/

/-- Claim C8: when the fetch fails (network error or non-ok response) and an
api key is present, `fetchRevives` surfaces the recoverable error banner and
leaves all persisted and cursor state unchanged: both record stores, the
`hasMoreData` exhaustion flag, the known oldest timestamp, the enriched set,
the reference-actor id and the logged-out flag are exactly as before the
call, so the caller may retry. -/
theorem fetchRevives_failure (st : DashState) (b : Bool) (k : String)
    (h : st.apiKey = some k) :
    (fetchRevives st b .failure).userStore = st.userStore ∧
    (fetchRevives st b .failure).factionStore = st.factionStore ∧
    (fetchRevives st b .failure).hasMoreData = st.hasMoreData ∧
    getOldestTimestamp (storeFor (fetchRevives st b .failure)) =
      getOldestTimestamp (storeFor st) ∧
    (fetchRevives st b .failure).revives = st.revives ∧
    (fetchRevives st b .failure).userReviveId = st.userReviveId ∧
    (fetchRevives st b .failure).loggedOut = st.loggedOut ∧
    (fetchRevives st b .failure).error = "Failed to fetch revives. Please try again." := by
  cases b <;> simp [fetchRevives, h, storeFor]

/-- Witness for C8 at a concrete dashboard state with a cached store. -/
theorem fetchRevives_failure_witness :
    (fetchRevives exDash true .failure).userStore = exDash.userStore ∧
    (fetchRevives exDash true .failure).hasMoreData = exDash.hasMoreData ∧
    (fetchRevives exDash true .failure).error =
      "Failed to fetch revives. Please try again." := by
  have h := fetchRevives_failure exDash true "key" rfl
  exact ⟨h.1, h.2.2.1, h.2.2.2.2.2.2.2⟩

/-! ## Helper lemmas: upsert-by-id merging -/

theorem putRevive_ids (store : List ReviveData) (r : ReviveData) :
    (putRevive store r).map ReviveData.id =
      if store.any (fun x => x.id == r.id) then store.map ReviveData.id
      else store.map ReviveData.id ++ [r.id] := by
  induction store with
  | nil => simp [putRevive]
  | cons x xs ih =>
    cases hx : (x.id == r.id) with
    | true =>
      have hid : x.id = r.id := by simpa using hx
      simp [putRevive, hx, hid]
    | false =>
      by_cases h2 : xs.any (fun y => y.id == r.id) <;>
        simp [putRevive, hx, ih, h2]

theorem putRevive_nodup (store : List ReviveData) (r : ReviveData)
    (h : (store.map ReviveData.id).Nodup) :
    ((putRevive store r).map ReviveData.id).Nodup := by
  rw [putRevive_ids]
  by_cases ha : store.any (fun x => x.id == r.id)
  · simpa [ha] using h
  · have hnot : r.id ∉ store.map ReviveData.id := by
      intro hmem
      obtain ⟨x, hx, hxid⟩ := List.mem_map.mp hmem
      exact ha (List.any_eq_true.mpr ⟨x, hx, by simpa using hxid⟩)
    simp [ha, List.nodup_append, h, hnot]

theorem mem_ids_putRevive (store : List ReviveData) (r : ReviveData) (i : Int) :
    i ∈ (putRevive store r).map ReviveData.id ↔
      i ∈ store.map ReviveData.id ∨ i = r.id := by
  rw [putRevive_ids]
  by_cases ha : store.any (fun x => x.id == r.id)
  · obtain ⟨x, hx, hxid⟩ := List.any_eq_true.mp ha
    have hmem : r.id ∈ store.map ReviveData.id :=
      List.mem_map.mpr ⟨x, hx, by simpa using hxid⟩
    simp only [ha, if_true]
    constructor
    · exact Or.inl
    · rintro (h | rfl)
      · exact h
      · exact hmem
  · simp [ha]

theorem saveRevives_nodup (store page : List ReviveData)
    (h : (store.map ReviveData.id).Nodup) :
    ((saveRevives store page).map ReviveData.id).Nodup := by
  induction page generalizing store with
  | nil => exact h
  | cons p ps ih =>
    simpa [saveRevives] using ih (putRevive store p) (putRevive_nodup store p h)

theorem mem_ids_saveRevives (store page : List ReviveData) (i : Int) :
    i ∈ (saveRevives store page).map ReviveData.id ↔
      i ∈ store.map ReviveData.id ∨ i ∈ page.map ReviveData.id := by
  induction page generalizing store with
  | nil => simp [saveRevives]
  | cons p ps ih =>
    have hstep : saveRevives store (p :: ps) = saveRevives (putRevive store p) ps := rfl
    rw [hstep, ih, mem_ids_putRevive]
    simp only [List.map_cons, List.mem_cons]
    tauto

theorem foldl_saveRevives_nodup (store : List ReviveData)
    (pages : List (List ReviveData)) (h : (store.map ReviveData.id).Nodup) :
    ((pages.foldl saveRevives store).map ReviveData.id).Nodup := by
  induction pages generalizing store with
  | nil => exact h
  | cons q qs ih =>
    simpa [List.foldl_cons] using ih (saveRevives store q) (saveRevives_nodup store q h)

/-! ## Claim C7 -/

/-- Claim C7: merging preserves id uniqueness. If the cached store has
pairwise-distinct ids then after `saveRevives` (upsert by id, last write
wins) the ids are still pairwise distinct — no duplicate entries — and the
stored id set is exactly the union of the old ids and the page's ids;
moreover, after any sequence of refresh/backfill merges the store still has
exactly one record per distinct id. -/
theorem saveRevives_id_unique (store page : List ReviveData)
    (h : (store.map ReviveData.id).Nodup) :
    ((saveRevives store page).map ReviveData.id).Nodup ∧
    (∀ i : Int, i ∈ (saveRevives store page).map ReviveData.id ↔
      i ∈ store.map ReviveData.id ∨ i ∈ page.map ReviveData.id) ∧
    ∀ pages : List (List ReviveData),
      ((pages.foldl saveRevives store).map ReviveData.id).Nodup :=
  ⟨saveRevives_nodup store page h,
    fun i => mem_ids_saveRevives store page i,
    fun pages => foldl_saveRevives_nodup store pages h⟩

/-- Witness for C7: merging a page whose ids overlap the cache produces no
duplicate ids, and the merged id set is the union. -/
theorem saveRevives_id_unique_witness :
    ((saveRevives [exRecord 1 100 50, exRecord 2 200 40]
        [exRecord 2 250 30, exRecord 3 300 20]).map ReviveData.id).Nodup ∧
    (2 : Int) ∈ (saveRevives [exRecord 1 100 50, exRecord 2 200 40]
        [exRecord 2 250 30, exRecord 3 300 20]).map ReviveData.id := by
  have h := saveRevives_id_unique [exRecord 1 100 50, exRecord 2 200 40]
    [exRecord 2 250 30, exRecord 3 300 20] (by decide)
  exact ⟨h.1, (h.2.1 2).mpr (Or.inl (by decide))⟩

/-! ## Helper lemmas: schema-upgrade store operations -/

theorem getStore_eq_none {α : Type} {db : DBStores α} {n : String}
    (h : hasStore db n = false) : getStore db n = none := by
  rw [getStore, Option.map_eq_none', List.find?_eq_none]
  intro x hx hbeq
  rw [hasStore] at h
  have : db.any (fun p => p.1 == n) = true := List.any_eq_true.mpr ⟨x, hx, hbeq⟩
  rw [h] at this
  exact Bool.false_ne_true this

theorem hasStore_deleteStore_self {α : Type} (db : DBStores α) (n : String) :
    hasStore (deleteStore db n) n = false := by
  rw [hasStore, deleteStore]
  rw [Bool.eq_false_iff]
  intro hany
  obtain ⟨x, hx, hbeq⟩ := List.any_eq_true.mp hany
  have := (List.mem_filter.mp hx).2
  simp only [beq_iff_eq] at hbeq
  simp [hbeq] at this

theorem hasStore_createStore_ne {α : Type} (db : DBStores α) {n m : String}
    (h : n ≠ m) : hasStore (createStore db n) m = hasStore db m := by
  rw [hasStore, createStore, List.any_append, hasStore]
  simp [h]

theorem hasStore_deleteStore_false {α : Type} (db : DBStores α) (n m : String)
    (h : hasStore db m = false) : hasStore (deleteStore db n) m = false := by
  rw [Bool.eq_false_iff] at h ⊢
  intro hany
  apply h
  obtain ⟨x, hx, hbeq⟩ := List.any_eq_true.mp hany
  exact List.any_eq_true.mpr ⟨x, (List.mem_filter.mp hx).1, hbeq⟩

theorem getStore_createStore_self {α : Type} (db : DBStores α) (m : String)
    (h : hasStore db m = false) : getStore (createStore db m) m = some [] := by
  rw [getStore, createStore, List.find?_append]
  have hn : List.find? (fun p => p.1 == m) db = none := by
    have := getStore_eq_none h
    rw [getStore, Option.map_eq_none'] at this
    exact this
  rw [hn]
  simp

theorem getStore_append_of_some {α : Type} (db l2 : DBStores α) (m : String)
    (c : List α) (h : getStore db m = some c) :
    getStore (db ++ l2) m = some c := by
  rw [getStore, List.find?_append]
  rw [getStore] at h
  cases hf : List.find? (fun p => p.1 == m) db with
  | none => rw [hf] at h; exact absurd h (by simp)
  | some q => rw [hf] at h; simpa using h

theorem find?_filter_of_imp {β : Type} {l : List β} {p q : β → Bool}
    (h : ∀ x, p x = true → q x = true) :
    (l.filter q).find? p = l.find? p := by
  induction l with
  | nil => rfl
  | cons x xs ih =>
    by_cases hq : q x = true
    · by_cases hp : p x = true <;> simp [List.filter_cons, hq, List.find?_cons, hp, ih]
    · have hp : p x = false := by
        rw [Bool.eq_false_iff]
        intro hpx
        exact hq (h x hpx)
      simp [List.filter_cons, hq, List.find?_cons, hp, ih]

theorem getStore_deleteStore_ne {α : Type} (db : DBStores α) {n m : String}
    (h : n ≠ m) : getStore (deleteStore db n) m = getStore db m := by
  rw [getStore, deleteStore, getStore, find?_filter_of_imp]
  intro x hx
  simp only [beq_iff_eq] at hx
  simp [hx, Ne.symm h]

/-! ## Claim C3 -/

/-- Counterexample for C3 as stated: upgrading a version-2 database whose
legacy `revives` store holds one record deletes the store; afterwards the
record is contained in no store of the database — it was silently dropped,
not renamed or split into the mode-scoped collections. -/
theorem initDB_upgrade_drops_legacy :
    getStore exLegacyDB "revives" = some [exRecord 10 100 50] ∧
    getStore (onUpgrade exLegacyDB) "revives" = none ∧
    ((onUpgrade exLegacyDB).all fun p => !(p.2.contains (exRecord 10 100 50))) = true := by
  decide

/-- Claim C3 amended: when init upgrades a database holding a legacy
unversioned `revives` collection, that collection is deleted outright: the
upgraded database has no `revives` store, the mode-scoped collections are
created empty, and nothing is copied — every store of the upgraded database
is either a newly-created empty store or an untouched store of the old
database. Legacy records are therefore lost, not migrated. -/
theorem initDB_upgrade_amended (db : DBStores ReviveData)
    (h1 : hasStore db "userRevives" = false)
    (h2 : hasStore db "factionRevives" = false) :
    getStore (onUpgrade db) "revives" = none ∧
    getStore (onUpgrade db) "userRevives" = some [] ∧
    getStore (onUpgrade db) "factionRevives" = some [] ∧
    ∀ p ∈ onUpgrade db, p.2 = [] ∨ p ∈ db := by
  have memCreate : ∀ (X : DBStores ReviveData) (n : String) (p : String × List ReviveData),
      p ∈ createStore X n → p.2 = [] ∨ p ∈ X := by
    intro X n p hp
    rcases List.mem_append.mp hp with h | h
    · exact Or.inr h
    · left
      have hpn : p = (n, []) := by simpa using h
      rw [hpn]
  have memDelete : ∀ (X : DBStores ReviveData) (n : String) (p : String × List ReviveData),
      p ∈ deleteStore X n → p ∈ X :=
    fun X n p hp => (List.mem_filter.mp hp).1
  obtain ⟨d1, hd1⟩ : ∃ d, d = (if hasStore db "settings" = true then db
      else createStore db "settings") := ⟨_, rfl⟩
  have hd1u : hasStore d1 "userRevives" = false := by
    rw [hd1]; split
    · exact h1
    · rw [hasStore_createStore_ne db (by decide)]; exact h1
  have hd1f : hasStore d1 "factionRevives" = false := by
    rw [hd1]; split
    · exact h2
    · rw [hasStore_createStore_ne db (by decide)]; exact h2
  obtain ⟨d2, hd2⟩ : ∃ d, d = createStore d1 "userRevives" := ⟨_, rfl⟩
  have hg2u : getStore d2 "userRevives" = some [] := by
    rw [hd2]; exact getStore_createStore_self d1 _ hd1u
  have hd2f : hasStore d2 "factionRevives" = false := by
    rw [hd2, hasStore_createStore_ne d1 (by decide)]; exact hd1f
  obtain ⟨d3, hd3⟩ : ∃ d, d = createStore d2 "factionRevives" := ⟨_, rfl⟩
  have hg3f : getStore d3 "factionRevives" = some [] := by
    rw [hd3]; exact getStore_createStore_self d2 _ hd2f
  have hg3u : getStore d3 "userRevives" = some [] := by
    rw [hd3, createStore]
    exact getStore_append_of_some d2 _ _ _ hg2u
  obtain ⟨d4, hd4⟩ : ∃ d, d = (if hasStore d3 "revives" = true
      then deleteStore d3 "revives" else d3) := ⟨_, rfl⟩
  have hd4r : hasStore d4 "revives" = false := by
    rw [hd4]; split
    · exact hasStore_deleteStore_self d3 "revives"
    · next h => exact Bool.eq_false_iff.mpr h
  have hg4u : getStore d4 "userRevives" = some [] := by
    rw [hd4]; split
    · rw [getStore_deleteStore_ne d3 (by decide)]; exact hg3u
    · exact hg3u
  have hg4f : getStore d4 "factionRevives" = some [] := by
    rw [hd4]; split
    · rw [getStore_deleteStore_ne d3 (by decide)]; exact hg3f
    · exact hg3f
  have chain1 : ∀ p : String × List ReviveData, p ∈ d1 → p.2 = [] ∨ p ∈ db := by
    intro p hp
    rw [hd1] at hp
    split at hp
    · exact Or.inr hp
    · exact memCreate _ _ _ hp
  have chain2 : ∀ p : String × List ReviveData, p ∈ d2 → p.2 = [] ∨ p ∈ db := by
    intro p hp
    rcases memCreate _ _ _ (hd2 ▸ hp) with h | h
    · exact Or.inl h
    · exact chain1 p h
  have chain3 : ∀ p : String × List ReviveData, p ∈ d3 → p.2 = [] ∨ p ∈ db := by
    intro p hp
    rcases memCreate _ _ _ (hd3 ▸ hp) with h | h
    · exact Or.inl h
    · exact chain2 p h
  have chain4 : ∀ p : String × List ReviveData, p ∈ d4 → p.2 = [] ∨ p ∈ db := by
    intro p hp
    rw [hd4] at hp
    split at hp
    · exact chain3 p (memDelete _ _ _ hp)
    · exact chain3 p hp
  have hneg1 : ¬(hasStore d1 "userRevives" = true) := by simp [hd1u]
  have hneg2 : ¬(hasStore d2 "factionRevives" = true) := by simp [hd2f]
  have he : onUpgrade db =
      (if hasStore d4 "paymentStatus" = true then d4
       else createStore d4 "paymentStatus") := by
    simp only [onUpgrade]
    rw [← hd1, if_neg hneg1, ← hd2, if_neg hneg2, ← hd3, ← hd4]
  rw [he]
  refine ⟨?_, ?_, ?_, ?_⟩
  · split
    · exact getStore_eq_none hd4r
    · apply getStore_eq_none
      rw [hasStore_createStore_ne d4 (by decide)]
      exact hd4r
  · split
    · exact hg4u
    · rw [createStore]
      exact getStore_append_of_some d4 _ _ _ hg4u
  · split
    · exact hg4f
    · rw [createStore]
      exact getStore_append_of_some d4 _ _ _ hg4f
  · intro p hp
    split at hp
    · exact chain4 p hp
    · rcases memCreate _ _ _ hp with h | h
      · exact Or.inl h
      · exact chain4 p h

/-- Witness for the amended C3 at the concrete version-2 database. -/
theorem initDB_upgrade_amended_witness :
    getStore (onUpgrade exLegacyDB) "revives" = none ∧
    getStore (onUpgrade exLegacyDB) "userRevives" = some [] ∧
    getStore (onUpgrade exLegacyDB) "factionRevives" = some [] := by
  have h := initDB_upgrade_amended exLegacyDB (by decide) (by decide)
  exact ⟨h.1, h.2.1, h.2.2.1⟩

/-! ## Claim C2 -/

/-- Counterexample for C2 as stated: the source computes
`Math.ceil(filteredCount / pageSize)` with no `max(1, ·)` floor, so a
filtered count of 0 yields `totalPages = 0`, not 1; and `handlePageChange`
stores the requested page without clamping, so requesting page 5 when only 2
pages exist leaves the current page at 5 > totalPages. -/
theorem pagination_counterexample :
    totalPages 0 10 = 0 ∧ specTotalPages 0 10 = 1 ∧
    handlePageChange 5 = 5 ∧ totalPages 15 10 = 2 := by
  refine ⟨?_, ?_, rfl, ?_⟩
  · norm_num [totalPages]
  · norm_num [specTotalPages]
  · norm_num [totalPages]
    have h2 : (⌈(3 : ℚ) / 2⌉ : Int) = 2 := by
      norm_num [Int.ceil_eq_iff]
    rw [h2]
    rfl

/-- Claim C2 amended: the view computes `totalPages = ceil(N/P)` with no
lower bound — `totalPages = 0` when `N = 0` (the pager label substitutes 1) —
which for `N ≥ 1` agrees with the spec's `max(1, ceil(N/P))`. Out-of-range
pagination requests are not clamped: `handlePageChange` stores the request
as-is, and the page-jump handler instead rejects requests outside
`[1, totalPages]`, leaving the current page unchanged, so a page-jump never
moves the current page above `totalPages` (nor below 1 when it was at least
1) and never produces an error. -/
theorem pagination_amended (n p input tp cur : Nat)
    (hn : 1 ≤ n) (hp : 1 ≤ p) (hcur : cur ≤ tp) :
    totalPages n p = specTotalPages n p ∧
    totalPages 0 p = 0 ∧
    handlePageJump input tp cur ≤ tp ∧
    (1 ≤ cur → 1 ≤ handlePageJump input tp cur) := by
  refine ⟨?_, ?_, ?_, ?_⟩
  · rw [totalPages, specTotalPages]
    have hpos : 0 < ⌈(n : ℚ) / (p : ℚ)⌉ := by
      rw [Int.ceil_pos]
      apply div_pos
      · exact_mod_cast hn
      · exact_mod_cast hp
    have h1 : 1 ≤ (⌈(n : ℚ) / (p : ℚ)⌉).toNat := by omega
    exact (Nat.max_eq_right h1).symm
  · simp [totalPages]
  · rw [handlePageJump]
    split
    · next h => exact h.2
    · exact hcur
  · intro h1
    rw [handlePageJump]
    split
    · next h => exact h.1
    · exact h1

/-- Witness for the amended C2 at `N = 15`, `P = 10`, a jump request of 5
with 2 total pages and current page 1. -/
theorem pagination_amended_witness :
    totalPages 15 10 = specTotalPages 15 10 ∧
    handlePageJump 5 2 1 ≤ 2 ∧ 1 ≤ handlePageJump 5 2 1 := by
  have h := pagination_amended 15 10 5 2 1 (by norm_num) (by norm_num) (by norm_num)
  exact ⟨h.1, h.2.2.1, h.2.2.2 (by norm_num)⟩

/-! ## Helper lemmas: membership in the filtered, sorted view -/

theorem mem_filter_ite {α : Type} {cond : Prop} [Decidable cond] {l : List α}
    {p : α → Bool} {r : α} :
    (r ∈ if cond then l.filter p else l) ↔ r ∈ l ∧ (cond → p r = true) := by
  split
  · next h => simp [List.mem_filter, h]
  · next h => simp [h]

theorem mem_filteredAndSortedRevives {revives : List EnrichedRevive}
    {st : FilterState} {r : EnrichedRevive} :
    r ∈ filteredAndSortedRevives revives st ↔
      r ∈ revives ∧
      (st.categoryFilter ≠ "all" → (r.Category.str == st.categoryFilter) = true) ∧
      (st.outcomeFilter ≠ "all" →
        (r.Success == (st.outcomeFilter == "success")) = true) ∧
      (jsTrim st.playerSearch ≠ "" → playerSearchPass st.playerSearch r = true) ∧
      (jsTrim st.factionSearch ≠ "" → factionSearchPass st.factionSearch r = true) ∧
      (0 < st.excludedPlayers.length →
        playerExclusionPass st.excludedPlayers r = true) ∧
      (0 < st.excludedFactions.length →
        factionExclusionPass st.excludedFactions r = true) ∧
      (∀ ft, st.fromTs = some ft → ft ≤ r.timestamp) ∧
      (∀ tt, st.toTs = some tt → r.timestamp ≤ tt + 86399) := by
  simp only [filteredAndSortedRevives]
  rw [mem_stableSortBy]
  cases hfrom : st.fromTs with
  | none =>
    cases hto : st.toTs with
    | none =>
      simp only [mem_filter_ite]
      simp [hfrom, hto]
      tauto
    | some tt =>
      rw [List.mem_filter]
      simp only [mem_filter_ite]
      simp [hfrom, hto]
      tauto
  | some ft =>
    cases hto : st.toTs with
    | none =>
      rw [List.mem_filter]
      simp only [mem_filter_ite]
      simp [hfrom, hto]
      tauto
    | some tt =>
      rw [List.mem_filter, List.mem_filter]
      simp only [mem_filter_ite]
      simp [hfrom, hto]
      tauto

theorem getSetting_putSetting (store : SettingsStore) (k : String) (v : SettingVal) :
    getSetting (putSetting store k v) k = some v := by
  rw [getSetting, putSetting, List.find?_append]
  have hnone :
      List.find? (fun p => p.1 == k) (List.filter (fun p => decide (p.1 ≠ k)) store) =
        none := by
    rw [List.find?_eq_none]
    intro x hx hbeq
    have hne := (List.mem_filter.mp hx).2
    simp only [beq_iff_eq] at hbeq
    simp [hbeq] at hne
  rw [hnone]
  simp [List.find?_cons]

/-! ## Claim C6 -/

/-- Counterexample for C6 as stated: a record whose target faction name is
the empty string passes the faction-exclusion filter even when the empty
string is a member of the persisted excluded-faction set — the source tests
the truthiness of `r.target.faction?.name` first, and `""` is falsy — so the
record still appears in the computed view. -/
theorem exclusion_filter_counterexample :
    (basicEnrich exRawEmptyFaction).target.faction = some ⟨7, ""⟩ ∧
    "" ∈ ({ stAll with excludedFactions := [""] } : FilterState).excludedFactions ∧
    basicEnrich exRawEmptyFaction ∈
      filteredAndSortedRevives [basicEnrich exRawEmptyFaction]
        { stAll with excludedFactions := [""] } := by
  refine ⟨rfl, by decide, ?_⟩
  rw [mem_filteredAndSortedRevives]
  refine ⟨by decide, ?_, ?_, ?_, ?_, ?_, ?_, ?_, ?_⟩ <;>
    (intro h; revert h; decide)

/-- Claim C6 amended: a record passes the filter only if its target name is
not in the persisted excluded-player set and, whenever its target faction
name is non-empty, that faction name is not in the persisted excluded-faction
set (a record with no faction, or with an empty-string faction name, always
passes the faction part); after toggling a player's name into the exclusion
set, no record with that target name appears in any subsequently computed
view; and the exclusion sets persist — reading them back from the settings
store after a save returns exactly the saved sets. -/
theorem exclusion_filter_amended :
    (∀ (revives : List EnrichedRevive) (st : FilterState) (r : EnrichedRevive),
      r ∈ filteredAndSortedRevives revives st →
      r.target.name ∉ st.excludedPlayers ∧
      ∀ f, r.target.faction = some f → f.name ≠ "" →
        f.name ∉ st.excludedFactions) ∧
    (∀ (ex : List String) (name : String), name ∉ ex →
      name ∈ toggleExclude ex name) ∧
    (∀ (revives : List EnrichedRevive) (st : FilterState) (r : EnrichedRevive)
      (name : String), name ∈ st.excludedPlayers →
      r ∈ filteredAndSortedRevives revives st → r.target.name ≠ name) ∧
    (∀ (store : SettingsStore) (players factions : List String),
      getExcludedFilters (saveExcludedFilters players factions store) =
        some (players, factions)) := by
  have hpass : ∀ (revives : List EnrichedRevive) (st : FilterState)
      (r : EnrichedRevive), r ∈ filteredAndSortedRevives revives st →
      r.target.name ∉ st.excludedPlayers ∧
      ∀ f, r.target.faction = some f → f.name ≠ "" →
        f.name ∉ st.excludedFactions := by
    intro revives st r hr
    rw [mem_filteredAndSortedRevives] at hr
    constructor
    · intro hmem
      have hlen : 0 < st.excludedPlayers.length := List.length_pos.mpr
        (fun he => by simp [he] at hmem)
      have := hr.2.2.2.2.2.1 hlen
      rw [playerExclusionPass] at this
      simp [hmem] at this
    · intro f hf hfname hmem
      have hlen : 0 < st.excludedFactions.length := List.length_pos.mpr
        (fun he => by simp [he] at hmem)
      have := hr.2.2.2.2.2.2.1 hlen
      rw [factionExclusionPass, hf] at this
      simp [hfname, hmem] at this
  refine ⟨hpass, ?_, ?_, ?_⟩
  · intro ex name hnot
    rw [toggleExclude, if_neg (by simp [hnot])]
    simp
  · intro revives st r name hname hr heq
    exact (hpass revives st r hr).1 (heq ▸ hname)
  · intro store players factions
    rw [getExcludedFilters, saveExcludedFilters, getSetting_putSetting]

/-- Witness for the amended C6: a record passing the empty filter state has
its name outside the (empty) exclusion sets, and a saved exclusion pair is
read back unchanged. -/
theorem exclusion_filter_amended_witness :
    ((basicEnrich (exRecord 10 100 50)).target.name ∉ stAll.excludedPlayers) ∧
    getExcludedFilters (saveExcludedFilters ["Tar"] ["FacA"] []) =
      some (["Tar"], ["FacA"]) := by
  constructor
  · refine (exclusion_filter_amended.1 [basicEnrich (exRecord 10 100 50)] stAll
      (basicEnrich (exRecord 10 100 50)) ?_).1
    rw [mem_filteredAndSortedRevives]
    refine ⟨by decide, ?_, ?_, ?_, ?_, ?_, ?_, ?_, ?_⟩ <;>
      (intro h; revert h; decide)
  · exact exclusion_filter_amended.2.2.2 [] ["Tar"] ["FacA"]

/-! ## Claim C10 -/

/-- Claim C10: a record whose target has no faction always passes the
faction-exclusion predicate, and its membership in the computed view does
not depend on the excluded-faction set at all; but any active faction-name
search (one whose text trims to non-empty) removes it from the view — the
faction substring match never succeeds for a record without a faction. -/
theorem noFaction_view (revives : List EnrichedRevive) (st : FilterState)
    (r : EnrichedRevive) (hf : r.target.faction = none) :
    (∀ exF : List String, factionExclusionPass exF r = true) ∧
    (jsTrim st.factionSearch ≠ "" → r ∉ filteredAndSortedRevives revives st) ∧
    (∀ exF exF' : List String,
      r ∈ filteredAndSortedRevives revives { st with excludedFactions := exF } ↔
      r ∈ filteredAndSortedRevives revives { st with excludedFactions := exF' }) := by
  refine ⟨?_, ?_, ?_⟩
  · intro exF
    rw [factionExclusionPass, hf]
  · intro hs hmem
    rw [mem_filteredAndSortedRevives] at hmem
    have hsp := hmem.2.2.2.2.1 hs
    rw [factionSearchPass, hf] at hsp
    exact Bool.false_ne_true hsp
  · intro exF exF'
    rw [mem_filteredAndSortedRevives, mem_filteredAndSortedRevives]
    simp [factionExclusionPass, hf]

/-- Witness for C10: a faction-less record is removed by an active faction
search. -/
theorem noFaction_view_witness :
    basicEnrich (exRecord 10 100 50) ∉
      filteredAndSortedRevives [basicEnrich (exRecord 10 100 50)]
        { stAll with factionSearch := "x" } :=
  (noFaction_view [basicEnrich (exRecord 10 100 50)]
    { stAll with factionSearch := "x" }
    (basicEnrich (exRecord 10 100 50)) rfl).2.1 (by decide)

end TornRevives

